import Mathlib

/-!
Shallow embedding of `backend/src/logger/application_insights_workflow_callbacks.py`
(the `ApplicationInsightsWorkflowCallbacks` adapter and the module-level
`unwrap_dict` helper), together with theorems settling the specification
claims about it.

Modelling conventions:
* A Python value (`Any`) is a `PyVal`: a string, an integer, `None`, or a
  `dict` with string keys.  A Python `dict` is represented by its list of
  key/value pairs in insertion order; building a `dict` from a sequence of
  pairs (`dict(items)`, `{**a, **b}` and dict displays) is `pyDict`, which
  realises Python's semantics: first occurrence fixes the position of a key,
  the last occurrence fixes its value.  Observation of a dict is `pyLookup`
  (the value of the last binding of a key).
* The logging side effects are materialised: each hook returns the updated
  adapter state together with the `LogRecord` it hands to the underlying
  `logging.Logger` (level, message, `stack_info`, `exc_info`, `extra`).
* The `__init_logger` while-loop is modelled with the process-wide registry
  `logging.Logger.manager.loggerDict` as a list of taken names and the
  timestamp-hash name generator as a function from the attempt number to the
  candidate name.  Raised exceptions become `Except.error` carrying the
  exception message.
-/

/-- A Python value as used by this module: strings, ints, `None`, and
string-keyed dictionaries (given by their entry list in insertion order). -/
inductive PyVal where
  | str (s : String)
  | int (n : Int)
  | pyNone
  | dict (entries : List (String × PyVal))

/-- `isinstance(v, dict)`. -/
def PyVal.isDict : PyVal → Bool
  | .dict _ => true
  | _ => false

/-- Lookup in a Python dict represented as its pair list: the value of the
LAST binding of the key wins (later duplicate bindings overwrite earlier
ones when the dict is built). -/
def pyLookup : List (String × PyVal) → String → Option PyVal
  | [], _ => Option.none
  | (k, v) :: rest, key =>
    match pyLookup rest key with
    | some w => some w
    | Option.none => if k = key then some v else Option.none

/-- One step of building a Python dict: binding key `k` to `v` in dict `d`.
If `k` is already present its value is replaced in place, otherwise the
binding is appended. -/
def pyDictInsert (d : List (String × PyVal)) (k : String) (v : PyVal) :
    List (String × PyVal) :=
  if d.any (fun p => p.1 = k) then
    d.map (fun p => if p.1 = k then (k, v) else p)
  else
    d ++ [(k, v)]

/-- Python dict construction from a pair sequence (`dict(items)` and the
semantics of `\x7b**a, **b\x7d`): insert the pairs left to right. -/
def pyDict (items : List (String × PyVal)) : List (String × PyVal) :=
  items.foldl (fun d p => pyDictInsert d p.1 p.2) []

/-- The f-string key join of `unwrap_dict` (source line 214):
`new_key = parent sep k` when `parent` is truthy (non-empty), else `k`. -/
def joinKey (parent sep k : String) : String :=
  if parent = "" then k else parent ++ sep ++ k

mutual

/-- The loop body of `unwrap_dict` for one entry value `v` under its joined
key (source lines 215-218): if `isinstance(v, dict)` the items of the
recursive `unwrap_dict(v, new_key, sep)` call (that call returns a dict,
hence the `pyDict`), else the single pair `(new_key, v)`. -/
def unwrapVal : PyVal → String → String → List (String × PyVal)
  | .dict es, newKey, sep => pyDict (unwrap_items es newKey sep)
  | w, newKey, _ => [(newKey, w)]

/-- The `items` list accumulated by the loop of `unwrap_dict`
(source lines 212-218). -/
def unwrap_items : List (String × PyVal) → String → String → List (String × PyVal)
  | [], _, _ => []
  | (k, v) :: rest, parent, sep =>
    unwrapVal v (joinKey parent sep k) sep ++ unwrap_items rest parent sep

end

/-- `unwrap_dict(input_dict, parent_key, sep)` (source lines 200-219):
`dict(items)` over the accumulated items. -/
def unwrap_dict (input_dict : List (String × PyVal)) (parent_key sep : String) :
    List (String × PyVal) :=
  pyDict (unwrap_items input_dict parent_key sep)

mutual

/-- Decidable equality of Python values. -/
def PyVal.deq : (a b : PyVal) → Decidable (a = b)
  | .str s, .str t =>
    match String.decEq s t with
    | isTrue h => isTrue (by rw [h])
    | isFalse h => isFalse (by intro hh; cases hh; exact h rfl)
  | .int m, .int n =>
    match Int.decEq m n with
    | isTrue h => isTrue (by rw [h])
    | isFalse h => isFalse (by intro hh; cases hh; exact h rfl)
  | .pyNone, .pyNone => isTrue rfl
  | .dict es, .dict fs =>
    match PyVal.deqEntries es fs with
    | isTrue h => isTrue (by rw [h])
    | isFalse h => isFalse (by intro hh; cases hh; exact h rfl)
  | .str _, .int _ => isFalse (by intro h; cases h)
  | .str _, .pyNone => isFalse (by intro h; cases h)
  | .str _, .dict _ => isFalse (by intro h; cases h)
  | .int _, .str _ => isFalse (by intro h; cases h)
  | .int _, .pyNone => isFalse (by intro h; cases h)
  | .int _, .dict _ => isFalse (by intro h; cases h)
  | .pyNone, .str _ => isFalse (by intro h; cases h)
  | .pyNone, .int _ => isFalse (by intro h; cases h)
  | .pyNone, .dict _ => isFalse (by intro h; cases h)
  | .dict _, .str _ => isFalse (by intro h; cases h)
  | .dict _, .int _ => isFalse (by intro h; cases h)
  | .dict _, .pyNone => isFalse (by intro h; cases h)

/-- Decidable equality of Python dict entry lists. -/
def PyVal.deqEntries : (a b : List (String × PyVal)) → Decidable (a = b)
  | [], [] => isTrue rfl
  | [], _ :: _ => isFalse (by intro h; cases h)
  | _ :: _, [] => isFalse (by intro h; cases h)
  | (k, v) :: rest, (k2, v2) :: rest2 =>
    match String.decEq k k2, PyVal.deq v v2, PyVal.deqEntries rest rest2 with
    | isTrue h1, isTrue h2, isTrue h3 => isTrue (by rw [h1, h2, h3])
    | isFalse h1, _, _ => isFalse (by intro hh; cases hh; exact h1 rfl)
    | _, isFalse h2, _ => isFalse (by intro hh; cases hh; exact h2 rfl)
    | _, _, isFalse h3 => isFalse (by intro hh; cases hh; exact h3 rfl)

end

instance : DecidableEq PyVal := PyVal.deq

/-- Severity of an emitted record (`logging` levels used by this module). -/
inductive LogLevel where
  | debug
  | info
  | warning
  | error
deriving DecidableEq

/-- One record handed to the underlying `logging.Logger`: the severity, the
message, the `stack_info` and `exc_info` flags, and the `extra` mapping
(the output of `_format_details`). -/
structure LogRecord where
  level : LogLevel
  message : String
  stack_info : Bool
  exc_info : Bool
  extra : List (String × PyVal)

/-- The mutable state of an `ApplicationInsightsWorkflowCallbacks` instance
(source lines 31-39, as set by `__init__`); the `_logger` handle and the
logger-name bookkeeping are external collaborators and carry no state the
hooks read. -/
structure Adapter where
  properties : List (String × PyVal)
  workflow_name : String
  index_name : String
  num_workflow_steps : Int
  processed_workflow_steps : List String

/-- `_format_details(details)` (source lines 109-122): `\x7b\x7d` unless
`details` is a dict, else the fixed property bag merged with the flattened
details (flattened values winning on key collision) wrapped under
`custom_dimensions`. -/
def format_details (properties : List (String × PyVal)) (details : Option PyVal) :
    List (String × PyVal) :=
  match details with
  | some (.dict es) =>
    [("custom_dimensions", PyVal.dict (pyDict (properties ++ unwrap_dict es "" "_")))]
  | _ => []

/-- `on_workflow_start(name, instance)` (source lines 124-143); the unused
opaque `instance` argument is omitted.  Returns the updated adapter state
and the INFO record passed to the logger. -/
def on_workflow_start (s : Adapter) (name : String) : Adapter × LogRecord :=
  let s1 : Adapter :=
    { s with
      workflow_name := name
      processed_workflow_steps := s.processed_workflow_steps ++ [name] }
  let message0 : String :=
    if s1.index_name = "" then "" else "Index: " ++ s1.index_name ++ " -- "
  let workflow_progress : String :=
    if s1.num_workflow_steps = 0 then ""
    else
      " (" ++ toString s1.processed_workflow_steps.length ++ "/" ++
        toString s1.num_workflow_steps ++ ")"
  let message : String :=
    message0 ++ "Workflow" ++ workflow_progress ++ ": " ++ name ++ " started."
  let details : List (String × PyVal) :=
    [("workflow_name", PyVal.str name)] ++
      (if s1.index_name = "" then [] else [("index_name", PyVal.str s1.index_name)])
  (s1,
   { level := .info
     message := message
     stack_info := false
     exc_info := false
     extra := format_details s1.properties (some (.dict details)) })

/-- `on_workflow_end(name, instance)` (source lines 145-162); does not touch
the adapter state, so the input state is returned unchanged. -/
def on_workflow_end (s : Adapter) (name : String) : Adapter × LogRecord :=
  let message0 : String :=
    if s.index_name = "" then "" else "Index: " ++ s.index_name ++ " -- "
  let workflow_progress : String :=
    if s.num_workflow_steps = 0 then ""
    else
      " (" ++ toString s.processed_workflow_steps.length ++ "/" ++
        toString s.num_workflow_steps ++ ")"
  let message : String :=
    message0 ++ "Workflow" ++ workflow_progress ++ ": " ++ name ++ " complete."
  let details : List (String × PyVal) :=
    [("workflow_name", PyVal.str name)] ++
      (if s.index_name = "" then [] else [("index_name", PyVal.str s.index_name)])
  (s,
   { level := .info
     message := message
     stack_info := false
     exc_info := false
     extra := format_details s.properties (some (.dict details)) })

/-- Python `str(cause)` for `cause : Optional[BaseException]`: `None`
stringifies to the string `None`; an exception is modelled by its string
form. -/
def pyStrCause : Option String → String
  | Option.none => "None"
  | some s => s

/-- The Python value taken by the `stack` binding of `on_error`: the stack
text when given, `None` otherwise. -/
def pyStackVal : Option String → PyVal
  | Option.none => PyVal.pyNone
  | some st => PyVal.str st

/-- The two leading bindings of the dict built by `on_error` (source line
173): `cause` bound to the stringified cause and `stack` bound to the stack
value. -/
def errorBase (cause stack : Option String) : List (String × PyVal) :=
  [("cause", PyVal.str (pyStrCause cause)), ("stack", pyStackVal stack)]

/-- `on_error(message, cause, stack, details)` (source lines 164-179):
rebinds `details` to the dict with a `cause` and `stack` binding followed by
the caller entries (caller bindings overwrite on key collision), then emits
an ERROR record with `exc_info=True`. -/
def on_error (s : Adapter) (message : String) (cause : Option String)
    (stack : Option String) (details : Option (List (String × PyVal))) :
    Adapter × LogRecord :=
  let details0 : List (String × PyVal) :=
    match details with
    | Option.none => []
    | some d => d
  let details1 : List (String × PyVal) :=
    pyDict (errorBase cause stack ++ details0)
  (s,
   { level := .error
     message := message
     stack_info := false
     exc_info := true
     extra := format_details s.properties (some (.dict details1)) })

/-- `on_warning(message, details)` (source lines 181-185). -/
def on_warning (s : Adapter) (message : String) (details : Option PyVal) :
    Adapter × LogRecord :=
  (s,
   { level := .warning
     message := message
     stack_info := false
     exc_info := false
     extra := format_details s.properties details })

/-- `on_log(message, details)` (source lines 187-191). -/
def on_log (s : Adapter) (message : String) (details : Option PyVal) :
    Adapter × LogRecord :=
  (s,
   { level := .info
     message := message
     stack_info := false
     exc_info := false
     extra := format_details s.properties details })

/-- `on_measure(name, value, details)` (source lines 193-197): always raises
`NotImplementedError`, emitting nothing; the numeric `value` argument is
never inspected, so its type is arbitrary. -/
def on_measure {V : Type} (s : Adapter) (name : String) (value : V)
    (details : Option PyVal) : Except String (Adapter × LogRecord) :=
  Except.error "on_measure() not supported by this logger."

/-- The while-loop of `__init_logger` (source lines 73-107).  `registry` is
the process-wide `logging.Logger.manager.loggerDict` key set at entry (a
collision does not register anything, so it is stable across retries);
`gen i` is the candidate name built from the timestamp hash on attempt `i`;
`max_retry` is the remaining sentinel counter.  A fresh candidate creates
the logger (the loop then stops); exhaustion raises. -/
def init_logger (registry : List String) (gen : Nat → String) :
    Nat → Nat → Except String String
  | _, 0 => Except.error "Failed to create logger. Could not disambiguate logger name."
  | attempt, Nat.succ m =>
    let candidate := gen attempt
    if candidate ∈ registry then init_logger registry gen (attempt + 1) m
    else Except.ok candidate

/-! Lemmas about the Python dict semantics (`pyLookup`, `pyDictInsert`,
`pyDict`). -/

theorem pyLookup_append (a b : List (String × PyVal)) (key : String) :
    pyLookup (a ++ b) key =
      match pyLookup b key with
      | some w => some w
      | Option.none => pyLookup a key := by
  induction a with
  | nil =>
    simp only [List.nil_append, pyLookup]
    cases pyLookup b key <;> rfl
  | cons p rest ih =>
    obtain ⟨k, v⟩ := p
    have hstep : pyLookup ((k, v) :: (rest ++ b)) key =
        match pyLookup (rest ++ b) key with
        | some w => some w
        | Option.none => if k = key then some v else Option.none := rfl
    rw [List.cons_append, hstep, ih]
    cases h1 : pyLookup b key <;> cases h2 : pyLookup rest key <;>
      simp [pyLookup, h1, h2]

theorem pyLookup_mem (l : List (String × PyVal)) (key : String) (v : PyVal)
    (h : pyLookup l key = some v) : (key, v) ∈ l := by
  induction l with
  | nil => simp [pyLookup] at h
  | cons p rest ih =>
    obtain ⟨k, w⟩ := p
    simp only [pyLookup] at h
    cases h2 : pyLookup rest key with
    | some u =>
      rw [h2] at h
      cases h
      exact List.mem_cons_of_mem _ (ih h2)
    | none =>
      rw [h2] at h
      by_cases hk : k = key
      · rw [if_pos hk] at h
        cases h
        rw [hk]
        exact List.mem_cons_self _ _
      · rw [if_neg hk] at h
        cases h

theorem pyLookup_eq_none (l : List (String × PyVal)) (key : String)
    (h : key ∉ l.map Prod.fst) : pyLookup l key = Option.none := by
  cases h2 : pyLookup l key with
  | none => rfl
  | some v =>
    exact absurd (List.mem_map.mpr ⟨(key, v), pyLookup_mem l key v h2, rfl⟩) h

theorem pyLookup_of_nodup_mem (l : List (String × PyVal)) (key : String) (v : PyVal)
    (hnd : (l.map Prod.fst).Nodup) (h : (key, v) ∈ l) : pyLookup l key = some v := by
  induction l with
  | nil => cases h
  | cons p rest ih =>
    obtain ⟨k, w⟩ := p
    simp only [List.map_cons, List.nodup_cons] at hnd
    rcases List.mem_cons.mp h with h1 | h1
    · cases h1
      have hr : pyLookup rest key = Option.none := by
        apply pyLookup_eq_none
        exact hnd.1
      simp [pyLookup, hr]
    · have hr := ih hnd.2 h1
      simp [pyLookup, hr]

theorem keys_map_replace (d : List (String × PyVal)) (k : String) (v : PyVal) :
    ((d.map (fun p => if p.1 = k then (k, v) else p)).map Prod.fst) = d.map Prod.fst := by
  induction d with
  | nil => rfl
  | cons p rest ih =>
    obtain ⟨k0, v0⟩ := p
    by_cases hk : k0 = k <;> simp [hk, ih]

theorem pyLookup_map_replace_ne (d : List (String × PyVal)) (k : String) (v : PyVal)
    (key : String) (hne : key ≠ k) :
    pyLookup (d.map (fun p => if p.1 = k then (k, v) else p)) key = pyLookup d key := by
  induction d with
  | nil => rfl
  | cons p rest ih =>
    obtain ⟨k0, v0⟩ := p
    simp only [List.map_cons]
    by_cases hk : k0 = k
    · rw [if_pos hk]
      simp only [pyLookup, ih]
      cases h3 : pyLookup rest key with
      | some u => rfl
      | none =>
        have h1 : ¬(k = key) := fun h => hne h.symm
        have h2 : ¬(k0 = key) := fun h => hne (h.symm.trans hk)
        rw [if_neg h1, if_neg h2]
    · rw [if_neg hk]
      simp only [pyLookup, ih]

theorem any_key_iff (d : List (String × PyVal)) (k : String) :
    d.any (fun p => p.1 = k) = true ↔ k ∈ d.map Prod.fst := by
  simp [List.any_eq_true, List.mem_map]

theorem pyLookup_map_replace_eq (d : List (String × PyVal)) (k : String) (v : PyVal)
    (h : d.any (fun p => p.1 = k) = true) :
    pyLookup (d.map (fun p => if p.1 = k then (k, v) else p)) k = some v := by
  induction d with
  | nil => simp at h
  | cons p rest ih =>
    obtain ⟨k0, v0⟩ := p
    by_cases hrest : rest.any (fun p => p.1 = k) = true
    · have h2 := ih hrest
      simp only [List.map_cons, pyLookup, h2]
    · have hk0 : k0 = k := by
        rcases List.any_eq_true.mp h with ⟨q, hq, hq2⟩
        rcases List.mem_cons.mp hq with h1 | h1
        · rw [h1] at hq2
          simpa using hq2
        · exact absurd (List.any_eq_true.mpr ⟨q, h1, hq2⟩) hrest
      have hkeys : k ∉ rest.map Prod.fst := fun hk =>
        hrest ((any_key_iff rest k).mpr hk)
      have hnone :
          pyLookup (rest.map (fun p => if p.1 = k then (k, v) else p)) k =
            Option.none := by
        apply pyLookup_eq_none
        rw [keys_map_replace]
        exact hkeys
      have hcons : List.map (fun p => if p.1 = k then (k, v) else p) ((k0, v0) :: rest) =
          (k, v) :: List.map (fun p => if p.1 = k then (k, v) else p) rest := by
        simp [hk0]
      rw [hcons]
      have hstep :
          pyLookup ((k, v) :: List.map (fun p => if p.1 = k then (k, v) else p) rest) k =
            match pyLookup (List.map (fun p => if p.1 = k then (k, v) else p) rest) k with
            | some w => some w
            | Option.none => if k = k then some v else Option.none := rfl
      rw [hstep, hnone]
      simp

theorem pyLookup_pyDictInsert (d : List (String × PyVal)) (k : String) (v : PyVal)
    (key : String) :
    pyLookup (pyDictInsert d k v) key =
      if key = k then some v else pyLookup d key := by
  rw [pyDictInsert]
  by_cases hany : d.any (fun p => p.1 = k) = true
  · rw [if_pos hany]
    by_cases hk : key = k
    · rw [if_pos hk, hk]
      exact pyLookup_map_replace_eq d k v hany
    · rw [if_neg hk]
      exact pyLookup_map_replace_ne d k v key hk
  · rw [if_neg hany, pyLookup_append]
    by_cases hk : key = k
    · have : pyLookup [(k, v)] key = some v := by
        simp [pyLookup, hk]
      rw [this, if_pos hk]
    · have : pyLookup [(k, v)] key = Option.none := by
        simp [pyLookup]
        intro h
        exact absurd h.symm hk
      rw [this, if_neg hk]

theorem pyLookup_foldl (l : List (String × PyVal)) (acc : List (String × PyVal))
    (key : String) :
    pyLookup (l.foldl (fun d p => pyDictInsert d p.1 p.2) acc) key =
      match pyLookup l key with
      | some w => some w
      | Option.none => pyLookup acc key := by
  induction l generalizing acc with
  | nil => simp [pyLookup]
  | cons p rest ih =>
    obtain ⟨k, v⟩ := p
    rw [List.foldl_cons, ih]
    cases h2 : pyLookup rest key with
    | some u => simp [pyLookup, h2]
    | none =>
      simp only [pyLookup, h2, pyLookup_pyDictInsert]
      by_cases hk : key = k
      · simp [hk]
      · rw [if_neg hk, if_neg (fun h => hk h.symm)]

theorem pyLookup_pyDict (l : List (String × PyVal)) (key : String) :
    pyLookup (pyDict l) key = pyLookup l key := by
  rw [pyDict, pyLookup_foldl]
  cases h : pyLookup l key <;> simp [pyLookup]

theorem mem_pyDictInsert (d : List (String × PyVal)) (k : String) (v : PyVal)
    (p : String × PyVal) (h : p ∈ pyDictInsert d k v) : p ∈ d ∨ p = (k, v) := by
  rw [pyDictInsert] at h
  by_cases hany : d.any (fun q => q.1 = k) = true
  · rw [if_pos hany] at h
    rcases List.mem_map.mp h with ⟨q, hq, hq2⟩
    by_cases hk : q.1 = k
    · rw [if_pos hk] at hq2
      right
      exact hq2.symm
    · rw [if_neg hk] at hq2
      left
      rw [← hq2]
      exact hq
  · rw [if_neg hany] at h
    rcases List.mem_append.mp h with h1 | h1
    · left; exact h1
    · right; simpa using h1

theorem mem_foldl_pyDictInsert (l : List (String × PyVal))
    (acc : List (String × PyVal)) (p : String × PyVal)
    (h : p ∈ l.foldl (fun d q => pyDictInsert d q.1 q.2) acc) : p ∈ acc ∨ p ∈ l := by
  induction l generalizing acc with
  | nil => left; exact h
  | cons q rest ih =>
    rw [List.foldl_cons] at h
    rcases ih (pyDictInsert acc q.1 q.2) h with h1 | h1
    · rcases mem_pyDictInsert acc q.1 q.2 p h1 with h2 | h2
      · left; exact h2
      · right
        rw [h2]
        exact List.mem_cons_self _ _
    · right
      exact List.mem_cons_of_mem _ h1

theorem mem_pyDict (l : List (String × PyVal)) (p : String × PyVal)
    (h : p ∈ pyDict l) : p ∈ l := by
  rcases mem_foldl_pyDictInsert l [] p h with h1 | h1
  · cases h1
  · exact h1

theorem keys_pyDictInsert_nodup (d : List (String × PyVal)) (k : String) (v : PyVal)
    (h : (d.map Prod.fst).Nodup) : ((pyDictInsert d k v).map Prod.fst).Nodup := by
  rw [pyDictInsert]
  by_cases hany : d.any (fun p => p.1 = k) = true
  · rw [if_pos hany, keys_map_replace]
    exact h
  · rw [if_neg hany]
    have hk : k ∉ d.map Prod.fst := fun hk => hany ((any_key_iff d k).mpr hk)
    simp [List.nodup_append, h, hk]

theorem keys_foldl_pyDictInsert_nodup (l : List (String × PyVal))
    (acc : List (String × PyVal)) (h : (acc.map Prod.fst).Nodup) :
    ((l.foldl (fun d q => pyDictInsert d q.1 q.2) acc).map Prod.fst).Nodup := by
  induction l generalizing acc with
  | nil => exact h
  | cons q rest ih =>
    rw [List.foldl_cons]
    exact ih _ (keys_pyDictInsert_nodup acc q.1 q.2 h)

theorem keys_pyDict_nodup (l : List (String × PyVal)) :
    ((pyDict l).map Prod.fst).Nodup :=
  keys_foldl_pyDictInsert_nodup l [] (by simp)

theorem foldl_pyDictInsert_of_nodup (l : List (String × PyVal))
    (acc : List (String × PyVal)) (h : ((acc ++ l).map Prod.fst).Nodup) :
    l.foldl (fun d q => pyDictInsert d q.1 q.2) acc = acc ++ l := by
  induction l generalizing acc with
  | nil => simp
  | cons q rest ih =>
    obtain ⟨k, v⟩ := q
    have hsplit : ((acc ++ (k, v) :: rest).map Prod.fst) =
        acc.map Prod.fst ++ k :: rest.map Prod.fst := by simp
    rw [hsplit] at h
    rw [List.nodup_append] at h
    obtain ⟨hacc, hkrest, hdisj⟩ := h
    have hk : k ∉ acc.map Prod.fst := fun hmem =>
      hdisj hmem (List.mem_cons_self _ _)
    have hins : pyDictInsert acc k v = acc ++ [(k, v)] := by
      rw [pyDictInsert, if_neg]
      intro hany
      exact hk ((any_key_iff acc k).mp hany)
    rw [List.foldl_cons, hins, ih]
    · simp
    · have : ((acc ++ [(k, v)]) ++ rest).map Prod.fst =
          acc.map Prod.fst ++ k :: rest.map Prod.fst := by simp
      rw [this, List.nodup_append]
      refine ⟨hacc, hkrest, hdisj⟩

theorem pyDict_of_nodup (l : List (String × PyVal))
    (h : (l.map Prod.fst).Nodup) : pyDict l = l := by
  have := foldl_pyDictInsert_of_nodup l [] (by simpa using h)
  simpa using this

/-! Leaves of a nested mapping and the shape of the flattened output. -/

mutual

/-- The leaves of one Python value: a non-dict value is a single leaf at the
empty path; the leaves of a dict are the leaves of its entries. -/
def leavesV : PyVal → List (List String × PyVal)
  | .dict es => leavesE es
  | w => [([], w)]

/-- The leaves of a dict entry list, each with the key path leading to it. -/
def leavesE : List (String × PyVal) → List (List String × PyVal)
  | [] => []
  | (k, v) :: rest => (leavesV v).map (fun pv => (k :: pv.1, pv.2)) ++ leavesE rest

end

/-- Folding `joinKey` along a path, starting from a parent key. -/
def foldJoin (parent sep : String) (path : List String) : String :=
  path.foldl (fun acc k => joinKey acc sep k) parent

/-- The keys on a path joined with the separator (the spec wording of the
flattened key). -/
def joinedKey (sep : String) : List String → String
  | [] => ""
  | [k] => k
  | k :: rest => k ++ sep ++ joinedKey sep rest

theorem append_ne_empty_left (a b : String) (h : a ≠ "") : a ++ b ≠ "" := by
  intro hab
  apply h
  have hd := congrArg String.data hab
  rw [String.data_append] at hd
  have ha : a.data = [] := (List.append_eq_nil.mp hd).1
  cases a
  simp only [String.data] at ha
  rw [ha]

theorem foldJoin_ne (sep : String) :
    ∀ (p : List String) (acc : String), acc ≠ "" → p ≠ [] →
      foldJoin acc sep p = acc ++ sep ++ joinedKey sep p
  | [], _, _, hp => absurd rfl hp
  | [k], acc, hacc, _ => by
    simp [foldJoin, joinKey, joinedKey, if_neg hacc]
  | k :: k2 :: rest, acc, hacc, _ => by
    have h2 : acc ++ sep ++ k ≠ "" :=
      append_ne_empty_left _ _ (append_ne_empty_left _ _ hacc)
    have hstep : foldJoin acc sep (k :: k2 :: rest) =
        foldJoin (joinKey acc sep k) sep (k2 :: rest) := rfl
    have hjk : joinKey acc sep k = acc ++ sep ++ k := if_neg hacc
    rw [hstep, hjk, foldJoin_ne sep (k2 :: rest) (acc ++ sep ++ k) h2 (by simp)]
    show (acc ++ sep ++ k) ++ sep ++ joinedKey sep (k2 :: rest) =
      acc ++ sep ++ (k ++ sep ++ joinedKey sep (k2 :: rest))
    simp [String.append_assoc]

theorem foldJoin_empty_parent (sep k : String) (p : List String) (hk : k ≠ "") :
    foldJoin "" sep (k :: p) = joinedKey sep (k :: p) := by
  have hstep : foldJoin "" sep (k :: p) = foldJoin (joinKey "" sep k) sep p := rfl
  have hjk : joinKey "" sep k = k := if_pos rfl
  rw [hstep, hjk]
  cases p with
  | nil => rfl
  | cons k2 rest =>
    rw [foldJoin_ne sep (k2 :: rest) k hk (by simp)]
    rfl

theorem leavesE_path_ne_nil (l : List (String × PyVal)) :
    ∀ pv ∈ leavesE l, pv.1 ≠ [] := by
  induction l with
  | nil => intro pv h; cases h
  | cons p rest ih =>
    obtain ⟨k, v⟩ := p
    intro pv hmem
    rcases List.mem_append.mp hmem with h1 | h1
    · rcases List.mem_map.mp h1 with ⟨q, _, hq2⟩
      rw [← hq2]
      simp
    · exact ih pv h1

mutual

/-- When the joined keys of the leaves are free of collisions, flattening a
value is exactly the list of its leaves under their joined keys. -/
theorem unwrapVal_eq_leaves : ∀ (v : PyVal) (key sep : String),
    ((leavesV v).map (fun pv => foldJoin key sep pv.1)).Nodup →
    unwrapVal v key sep = (leavesV v).map (fun pv => (foldJoin key sep pv.1, pv.2))
  | .str _, _, _, _ => rfl
  | .int _, _, _, _ => rfl
  | .pyNone, _, _, _ => rfl
  | .dict es, key, sep, h => by
    have hitems := unwrap_items_eq_leaves es key sep h
    show pyDict (unwrap_items es key sep) = _
    rw [hitems]
    apply pyDict_of_nodup
    rw [List.map_map]
    exact h

/-- When the joined keys of the leaves are free of collisions, the items
accumulated by the flattening loop are exactly the leaves under their joined
keys. -/
theorem unwrap_items_eq_leaves : ∀ (l : List (String × PyVal)) (parent sep : String),
    ((leavesE l).map (fun pv => foldJoin parent sep pv.1)).Nodup →
    unwrap_items l parent sep =
      (leavesE l).map (fun pv => (foldJoin parent sep pv.1, pv.2))
  | [], _, _, _ => rfl
  | (k, v) :: rest, parent, sep, h => by
    have hsplit : leavesE ((k, v) :: rest) =
        (leavesV v).map (fun pv => (k :: pv.1, pv.2)) ++ leavesE rest := rfl
    rw [hsplit] at h ⊢
    rw [List.map_append, List.map_map] at h
    rw [List.map_append, List.map_map]
    have h1 : ((leavesV v).map (fun pv => foldJoin (joinKey parent sep k) sep pv.1)).Nodup :=
      h.of_append_left
    have h2 : ((leavesE rest).map (fun pv => foldJoin parent sep pv.1)).Nodup :=
      h.of_append_right
    show unwrapVal v (joinKey parent sep k) sep ++ unwrap_items rest parent sep = _
    rw [unwrapVal_eq_leaves v (joinKey parent sep k) sep h1,
      unwrap_items_eq_leaves rest parent sep h2]
    rfl

end

mutual

/-- Every value produced by flattening a value is a non-dict (flat output). -/
theorem unwrapVal_flat : ∀ (v : PyVal) (key sep : String) (p : String × PyVal),
    p ∈ unwrapVal v key sep → p.2.isDict = false
  | .str s, key, _, p, h => by
    have h1 : p = (key, PyVal.str s) := List.mem_singleton.mp h
    rw [h1]
    rfl
  | .int n, key, _, p, h => by
    have h1 : p = (key, PyVal.int n) := List.mem_singleton.mp h
    rw [h1]
    rfl
  | .pyNone, key, _, p, h => by
    have h1 : p = (key, PyVal.pyNone) := List.mem_singleton.mp h
    rw [h1]
    rfl
  | .dict es, key, sep, p, h => by
    have h1 : p ∈ unwrap_items es key sep := mem_pyDict _ p h
    exact unwrap_items_flat es key sep p h1

/-- Every value produced by the flattening loop is a non-dict (flat output). -/
theorem unwrap_items_flat : ∀ (l : List (String × PyVal)) (parent sep : String)
    (p : String × PyVal), p ∈ unwrap_items l parent sep → p.2.isDict = false
  | (k, v) :: rest, parent, sep, p, h => by
    rcases List.mem_append.mp h with h1 | h1
    · exact unwrapVal_flat v (joinKey parent sep k) sep p h1
    · exact unwrap_items_flat rest parent sep p h1

end

/-- On leaves whose keys are non-empty, the source's key join agrees with
the plain separator join of the path. -/
theorem leaf_join_eq (es : List (String × PyVal))
    (hne : ∀ pv ∈ leavesE es, ∀ k ∈ pv.1, k ≠ "") (pv : List String × PyVal)
    (hpv : pv ∈ leavesE es) : foldJoin "" "_" pv.1 = joinedKey "_" pv.1 := by
  have hnil := leavesE_path_ne_nil es pv hpv
  cases hp : pv.1 with
  | nil => exact absurd hp hnil
  | cons k p =>
    apply foldJoin_empty_parent
    apply hne pv hpv
    rw [hp]
    exact List.mem_cons_self _ _

/-! Claim theorems. -/

/-- C1 (corrected): for a nested details mapping whose keys are non-empty
and whose leaves have pairwise distinct joined keys, the flattening function
produces a flat mapping (no dict values) in which each leaf value appears
under the key formed by joining the keys on the path to it with the
separator, at any nesting depth; in particular flattening the mapping
a ↦ (b ↦ (c ↦ 1)) yields the mapping a_b_c ↦ 1. -/
theorem c1_unwrap_dict_flattens (es : List (String × PyVal))
    (hne : ∀ pv ∈ leavesE es, ∀ k ∈ pv.1, k ≠ "")
    (hnd : ((leavesE es).map (fun pv => joinedKey "_" pv.1)).Nodup) :
    (∀ pv ∈ leavesE es,
      pyLookup (unwrap_dict es "" "_") (joinedKey "_" pv.1) = some pv.2)
    ∧ (∀ p ∈ unwrap_dict es "" "_", p.2.isDict = false)
    ∧ unwrap_dict [("a", PyVal.dict [("b", PyVal.dict [("c", PyVal.int 1)])])] "" "_"
        = [("a_b_c", PyVal.int 1)] := by
  have hmapeq : (leavesE es).map (fun pv => foldJoin "" "_" pv.1) =
      (leavesE es).map (fun pv => joinedKey "_" pv.1) :=
    List.map_congr_left (fun pv hpv => leaf_join_eq es hne pv hpv)
  have hnd' : ((leavesE es).map (fun pv => foldJoin "" "_" pv.1)).Nodup := by
    rw [hmapeq]
    exact hnd
  have hitems := unwrap_items_eq_leaves es "" "_" hnd'
  refine ⟨?_, ?_, rfl⟩
  · intro pv hpv
    rw [unwrap_dict, pyLookup_pyDict, hitems]
    have hkeys :
        (((leavesE es).map (fun pv => (foldJoin "" "_" pv.1, pv.2))).map Prod.fst).Nodup := by
      rw [List.map_map]
      exact hnd'
    apply pyLookup_of_nodup_mem _ _ _ hkeys
    apply List.mem_map.mpr
    refine ⟨pv, hpv, ?_⟩
    rw [leaf_join_eq es hne pv hpv]
  · intro p hp
    rw [unwrap_dict] at hp
    exact unwrap_items_flat es "" "_" p (mem_pyDict _ p hp)

/-- Witness for C1 at the concrete nested mapping a ↦ (b ↦ (c ↦ 1)). -/
theorem c1_unwrap_dict_flattens_witness :
    pyLookup
      (unwrap_dict [("a", PyVal.dict [("b", PyVal.dict [("c", PyVal.int 1)])])] "" "_")
      (joinedKey "_" ["a", "b", "c"]) = some (PyVal.int 1) := by
  have h :=
    (c1_unwrap_dict_flattens
      [("a", PyVal.dict [("b", PyVal.dict [("c", PyVal.int 1)])])]
      (by decide) (by decide)).1
  exact h (["a", "b", "c"], PyVal.int 1) (by decide)

/-- C1 counterexample: in the mapping with top-level entries
a ↦ (b ↦ 1) and a_b ↦ 2, the leaf 1 sits at path a, b; its joined key a_b
is also produced by the later top-level entry, whose value wins in
`dict(items)`, so the flattened mapping does not carry the leaf 1 under its
joined key — the claim fails as stated for arbitrary nested mappings. -/
theorem c1_counterexample :
    (["a", "b"], PyVal.int 1) ∈
      leavesE [("a", PyVal.dict [("b", PyVal.int 1)]), ("a_b", PyVal.int 2)]
    ∧ pyLookup
        (unwrap_dict [("a", PyVal.dict [("b", PyVal.int 1)]), ("a_b", PyVal.int 2)] "" "_")
        (joinedKey "_" ["a", "b"]) ≠ some (PyVal.int 1) := by
  constructor
  · decide
  · decide

theorem init_logger_ok (registry : List String) (gen : Nat → String) :
    ∀ (m attempt : Nat), (∃ i, i < m ∧ gen (attempt + i) ∉ registry) →
      ∃ nm, init_logger registry gen attempt m = Except.ok nm ∧ nm ∉ registry
  | 0, _, h => by
    obtain ⟨i, hi, _⟩ := h
    exact absurd hi (Nat.not_lt_zero i)
  | Nat.succ m, attempt, h => by
    by_cases hc : gen attempt ∈ registry
    · have hstep : init_logger registry gen attempt (Nat.succ m) =
          init_logger registry gen (attempt + 1) m := by
        simp [init_logger, hc]
      rw [hstep]
      apply init_logger_ok registry gen m (attempt + 1)
      obtain ⟨i, hi, hnot⟩ := h
      cases i with
      | zero => exact absurd (by simpa using hc) hnot
      | succ j =>
        refine ⟨j, by omega, ?_⟩
        have harith : attempt + 1 + j = attempt + (j + 1) := by omega
        rw [harith]
        exact hnot
    · exact ⟨gen attempt, by simp [init_logger, hc], hc⟩

theorem init_logger_error (registry : List String) (gen : Nat → String) :
    ∀ (m attempt : Nat), (∀ i, i < m → gen (attempt + i) ∈ registry) →
      init_logger registry gen attempt m =
        Except.error "Failed to create logger. Could not disambiguate logger name."
  | 0, _, _ => rfl
  | Nat.succ m, attempt, h => by
    have hc : gen attempt ∈ registry := by simpa using h 0 (Nat.succ_pos m)
    have hstep : init_logger registry gen attempt (Nat.succ m) =
        init_logger registry gen (attempt + 1) m := by
      simp [init_logger, hc]
    rw [hstep]
    apply init_logger_error registry gen m (attempt + 1)
    intro i hi
    have harith : attempt + 1 + i = attempt + (i + 1) := by omega
    rw [harith]
    exact h (i + 1) (by omega)

/-- C2: for every registry state and retry budget, if some candidate within
the budget does not collide with an already-registered name, provisioning
succeeds with a name not in the registry; if every candidate up to the
budget collides, construction fails with the provisioning-exhausted error
and no logger name is produced. -/
theorem c2_provisioning (registry : List String) (gen : Nat → String) (budget : Nat) :
    ((∃ i, i < budget ∧ gen i ∉ registry) →
      ∃ nm, init_logger registry gen 0 budget = Except.ok nm ∧ nm ∉ registry)
    ∧ ((∀ i, i < budget → gen i ∈ registry) →
      init_logger registry gen 0 budget =
        Except.error "Failed to create logger. Could not disambiguate logger name.") := by
  constructor
  · intro h
    apply init_logger_ok registry gen budget 0
    obtain ⟨i, hi, hn⟩ := h
    refine ⟨i, hi, ?_⟩
    simpa using hn
  · intro h
    apply init_logger_error registry gen budget 0
    intro i hi
    simpa using h i hi

/-- Witness for C2 at the default budget 10: one non-colliding candidate
makes provisioning succeed; a generator always colliding with the registry
exhausts the budget. -/
theorem c2_provisioning_witness :
    (∃ nm, init_logger ["taken"] (fun i => if i = 0 then "taken" else "fresh") 0 10 =
        Except.ok nm ∧ nm ∉ ["taken"])
    ∧ init_logger ["x"] (fun _ => "x") 0 10 =
        Except.error "Failed to create logger. Could not disambiguate logger name." := by
  constructor
  · apply (c2_provisioning ["taken"] (fun i => if i = 0 then "taken" else "fresh") 10).1
    refine ⟨1, by omega, by decide⟩
  · apply (c2_provisioning ["x"] (fun _ => "x") 10).2
    intro i hi
    simp

/-- C3: a `None`/absent details value and a non-mapping details value are
treated identically by `_format_details`: both produce the empty mapping,
and the emitted record then carries no `custom_dimensions` key. -/
theorem c3_format_details_empty (properties : List (String × PyVal)) :
    format_details properties Option.none = []
    ∧ (∀ v : PyVal, v.isDict = false →
        format_details properties (some v) = []
        ∧ format_details properties (some v) = format_details properties Option.none)
    ∧ (∀ (s : Adapter) (msg : String) (v : PyVal), v.isDict = false →
        (on_log s msg (some v)).2.extra = [])
    ∧ (∀ (s : Adapter) (msg : String), (on_log s msg Option.none).2.extra = []) := by
  have hval : ∀ (props : List (String × PyVal)) (v : PyVal), v.isDict = false →
      format_details props (some v) = [] := by
    intro props v hv
    cases v with
    | str s => rfl
    | int n => rfl
    | pyNone => rfl
    | dict es => simp [PyVal.isDict] at hv
  refine ⟨rfl, fun v hv => ⟨hval properties v hv, hval properties v hv⟩, ?_,
    fun s msg => rfl⟩
  intro s msg v hv
  show format_details s.properties (some v) = []
  exact hval s.properties v hv

/-- Witness for C3 at the non-mapping details value 3. -/
theorem c3_format_details_empty_witness :
    format_details [("x", PyVal.int 5)] (some (PyVal.int 3)) = []
    ∧ format_details [("x", PyVal.int 5)] (some (PyVal.int 3)) =
        format_details [("x", PyVal.int 5)] Option.none :=
  (c3_format_details_empty [("x", PyVal.int 5)]).2.1 (PyVal.int 3) rfl

/-- C4: when a flattened-details key is present, the formatted
`custom_dimensions` mapping carries the flattened details value under that
key, whatever the fixed property bag binds it to (details win on
collision). -/
theorem c4_details_override (properties es : List (String × PyVal)) (k : String)
    (v : PyVal) (h : pyLookup (unwrap_dict es "" "_") k = some v) :
    ∃ m, format_details properties (some (PyVal.dict es)) =
        [("custom_dimensions", PyVal.dict m)] ∧ pyLookup m k = some v := by
  refine ⟨pyDict (properties ++ unwrap_dict es "" "_"), rfl, ?_⟩
  rw [pyLookup_pyDict, pyLookup_append, h]

/-- Witness for C4: the bag binds k ↦ 1, the details bind k ↦ 2, and the
formatted mapping carries k ↦ 2. -/
theorem c4_details_override_witness :
    ∃ m, format_details [("k", PyVal.int 1)] (some (PyVal.dict [("k", PyVal.int 2)])) =
        [("custom_dimensions", PyVal.dict m)] ∧ pyLookup m "k" = some (PyVal.int 2) :=
  c4_details_override [("k", PyVal.int 1)] [("k", PyVal.int 2)] "k" (PyVal.int 2)
    (by decide)

/-- C8: the measurement hook always fails with the unsupported-operation
error, for every argument tuple, and never produces a record. -/
theorem c8_on_measure_unsupported :
    ∀ (V : Type) (s : Adapter) (name : String) (value : V) (details : Option PyVal),
      on_measure s name value details =
        Except.error "on_measure() not supported by this logger."
      ∧ ∀ out : Adapter × LogRecord, on_measure s name value details ≠ Except.ok out :=
  fun _ _ _ _ _ => ⟨rfl, fun _ h => Except.noConfusion h⟩

/-- Witness for C8 at concrete arguments. -/
theorem c8_on_measure_unsupported_witness :
    on_measure ⟨[], "N/A", "", 0, []⟩ "n" (0 : Int) Option.none =
      Except.error "on_measure() not supported by this logger."
    ∧ on_measure ⟨[], "N/A", "", 0, []⟩ "n" (0 : Int) Option.none ≠
      Except.ok (⟨[], "N/A", "", 0, []⟩, ⟨LogLevel.info, "", false, false, []⟩) :=
  ⟨(c8_on_measure_unsupported Int ⟨[], "N/A", "", 0, []⟩ "n" 0 Option.none).1,
   (c8_on_measure_unsupported Int ⟨[], "N/A", "", 0, []⟩ "n" 0 Option.none).2 _⟩

/-- C10: an empty details mapping (as opposed to an absent or non-mapping
one) does produce the `custom_dimensions` wrapper, and its value is exactly
the adapter's fixed property bag. -/
theorem c10_empty_details (properties : List (String × PyVal))
    (h : (properties.map Prod.fst).Nodup) :
    format_details properties (some (PyVal.dict [])) =
      [("custom_dimensions", PyVal.dict properties)] := by
  show [("custom_dimensions", PyVal.dict (pyDict (properties ++ unwrap_dict [] "" "_")))] = _
  rw [show unwrap_dict [] "" "_" = ([] : List (String × PyVal)) from rfl,
    List.append_nil, pyDict_of_nodup properties h]

/-- Witness for C10 at a one-entry property bag. -/
theorem c10_empty_details_witness :
    format_details [("x", PyVal.int 1)] (some (PyVal.dict [])) =
      [("custom_dimensions", PyVal.dict [("x", PyVal.int 1)])] :=
  c10_empty_details [("x", PyVal.int 1)] (by decide)

/-! String observations on the emitted messages. -/

/-- `s` begins with `p` (stated on the character data). -/
def strStarts (s p : String) : Prop := p.data <+: s.data

instance (s p : String) : Decidable (strStarts s p) := by
  unfold strStarts
  exact inferInstance

/-- `sub` occurs as a contiguous substring of `s`. -/
def strContainsSub (s sub : String) : Prop := sub.data <:+: s.data

instance (s sub : String) : Decidable (strContainsSub s sub) := by
  unfold strContainsSub
  exact inferInstance

theorem infix_append_left {l t : List Char} (s : List Char) (h : l <:+: t) :
    l <:+: s ++ t :=
  h.trans (List.suffix_append s t).isInfix

theorem strStarts_append5 (p a b c d e : String) :
    strStarts (p ++ a ++ b ++ c ++ d ++ e) p := by
  show p.data <+: _
  have h : p ++ a ++ b ++ c ++ d ++ e = p ++ (a ++ (b ++ (c ++ (d ++ e)))) := by
    simp [String.append_assoc]
  rw [h, String.data_append]
  exact List.prefix_append _ _

theorem not_starts_index_of_head_w (msg : String)
    (hmsg : msg.data.head? = some 'W') : ¬ strStarts msg "Index: " := by
  intro h
  obtain ⟨t, ht⟩ := h
  rw [← ht] at hmsg
  have hI : ("Index: ".data ++ t).head? = some 'I' := rfl
  rw [hI] at hmsg
  exact absurd hmsg (by decide)

theorem strContainsSub_progress (m0 a b c d e : String) :
    strContainsSub (m0 ++ "Workflow" ++ (" (" ++ a ++ "/" ++ b ++ ")") ++ c ++ d ++ e)
      ("(" ++ a ++ "/" ++ b ++ ")") := by
  show ("(" ++ a ++ "/" ++ b ++ ")").data <:+: _
  refine ⟨m0.data ++ "Workflow".data ++ [' '], c.data ++ d.data ++ e.data, ?_⟩
  have h1 : " (".data = ' ' :: '(' :: ([] : List Char) := rfl
  have h2 : "(".data = '(' :: ([] : List Char) := rfl
  simp [String.data_append, h1, h2, List.append_assoc]

/-- C5: with three expected steps and an empty step history, the first
workflow start reports (1/3) in its message and the next start reports
(2/3); with zero expected steps the progress suffix is omitted entirely. -/
theorem c5_progress_suffix (props : List (String × PyVal)) (idx wname : String) :
    strContainsSub (on_workflow_start ⟨props, wname, idx, 3, []⟩ "A").2.message "(1/3)"
    ∧ strContainsSub
        (on_workflow_start (on_workflow_start ⟨props, wname, idx, 3, []⟩ "A").1 "B").2.message
        "(2/3)"
    ∧ ∀ nm, (on_workflow_start ⟨props, wname, idx, 0, []⟩ nm).2.message =
        (if idx = "" then "" else "Index: " ++ idx ++ " -- ") ++ "Workflow" ++ ": " ++
          nm ++ " started." := by
  refine ⟨?_, ?_, ?_⟩
  · show "(1/3)".data <:+:
      ((on_workflow_start ⟨props, wname, idx, 3, []⟩ "A").2.message).data
    have hmsg : (on_workflow_start ⟨props, wname, idx, 3, []⟩ "A").2.message =
        (if idx = "" then "" else "Index: " ++ idx ++ " -- ") ++
          ("Workflow" ++ " (1/3)" ++ ": " ++ "A" ++ " started.") := by
      have h1 : toString (1 : Nat) = "1" := rfl
      have h3 : toString (3 : Int) = "3" := rfl
      simp [on_workflow_start, h1, h3, String.append_assoc]
    rw [hmsg, String.data_append]
    exact infix_append_left _ (by decide)
  · show "(2/3)".data <:+:
      ((on_workflow_start (on_workflow_start ⟨props, wname, idx, 3, []⟩ "A").1 "B").2.message).data
    have hmsg :
        (on_workflow_start (on_workflow_start ⟨props, wname, idx, 3, []⟩ "A").1 "B").2.message =
        (if idx = "" then "" else "Index: " ++ idx ++ " -- ") ++
          ("Workflow" ++ " (2/3)" ++ ": " ++ "B" ++ " started.") := by
      have h2 : toString (2 : Nat) = "2" := rfl
      have h3 : toString (3 : Int) = "3" := rfl
      simp [on_workflow_start, h2, h3, String.append_assoc]
    rw [hmsg, String.data_append]
    exact infix_append_left _ (by decide)
  · intro nm
    simp [on_workflow_start, String.append_empty, String.append_assoc]

/-- Witness for C5 at a concrete adapter (empty bag, empty index). -/
theorem c5_progress_suffix_witness :
    strContainsSub (on_workflow_start ⟨[], "N/A", "", 3, []⟩ "A").2.message "(1/3)" :=
  (c5_progress_suffix [] "" "N/A").1

/-- C6 (corrected): with a non-empty index label the workflow start and end
hooks prefix their messages with the index banner, and with an empty label
they do not; the error, warning and log hooks however always emit the
caller's message unchanged, never prefixed. -/
theorem c6_index_prefixing (s : Adapter) (nm msg : String) (cause stack : Option String)
    (dts : Option (List (String × PyVal))) (dtl : Option PyVal) :
    (s.index_name ≠ "" →
      strStarts (on_workflow_start s nm).2.message ("Index: " ++ s.index_name ++ " -- ")
      ∧ strStarts (on_workflow_end s nm).2.message ("Index: " ++ s.index_name ++ " -- "))
    ∧ (s.index_name = "" →
      ¬ strStarts (on_workflow_start s nm).2.message "Index: "
      ∧ ¬ strStarts (on_workflow_end s nm).2.message "Index: ")
    ∧ (on_error s msg cause stack dts).2.message = msg
    ∧ (on_warning s msg dtl).2.message = msg
    ∧ (on_log s msg dtl).2.message = msg := by
  have hstart : (on_workflow_start s nm).2.message =
      (if s.index_name = "" then "" else "Index: " ++ s.index_name ++ " -- ") ++
        "Workflow" ++
        (if s.num_workflow_steps = 0 then ""
         else " (" ++ toString (s.processed_workflow_steps ++ [nm]).length ++ "/" ++
           toString s.num_workflow_steps ++ ")") ++ ": " ++ nm ++ " started." := rfl
  have hend : (on_workflow_end s nm).2.message =
      (if s.index_name = "" then "" else "Index: " ++ s.index_name ++ " -- ") ++
        "Workflow" ++
        (if s.num_workflow_steps = 0 then ""
         else " (" ++ toString s.processed_workflow_steps.length ++ "/" ++
           toString s.num_workflow_steps ++ ")") ++ ": " ++ nm ++ " complete." := rfl
  refine ⟨?_, ?_, rfl, rfl, rfl⟩
  · intro h
    constructor
    · rw [hstart, if_neg h]
      exact strStarts_append5 _ _ _ _ _ _
    · rw [hend, if_neg h]
      exact strStarts_append5 _ _ _ _ _ _
  · intro h
    have hW : "Workflow".data = 'W' :: "orkflow".data := rfl
    have hE : "".data = ([] : List Char) := rfl
    constructor
    · rw [hstart, if_pos h]
      apply not_starts_index_of_head_w
      simp [String.data_append, hE, hW]
    · rw [hend, if_pos h]
      apply not_starts_index_of_head_w
      simp [String.data_append, hE, hW]

/-- Witness for C6 at concrete adapters with index labels myindex and empty. -/
theorem c6_index_prefixing_witness :
    strStarts (on_workflow_start ⟨[], "N/A", "myindex", 0, []⟩ "A").2.message
      ("Index: " ++ "myindex" ++ " -- ")
    ∧ ¬ strStarts (on_workflow_start ⟨[], "N/A", "", 0, []⟩ "A").2.message "Index: " := by
  constructor
  · exact ((c6_index_prefixing ⟨[], "N/A", "myindex", 0, []⟩ "A" "m" Option.none
      Option.none Option.none Option.none).1 (by decide)).1
  · exact ((c6_index_prefixing ⟨[], "N/A", "", 0, []⟩ "A" "m" Option.none
      Option.none Option.none Option.none).2.1 rfl).1

/-- C6 counterexample: with index label myindex the warning hook emits the
caller's message unchanged, without the index banner, so not every emitted
message begins with it. -/
theorem c6_counterexample :
    (on_warning ⟨[], "N/A", "myindex", 0, []⟩ "w" Option.none).2.message = "w"
    ∧ ¬ strStarts (on_warning ⟨[], "N/A", "myindex", 0, []⟩ "w" Option.none).2.message
        ("Index: " ++ "myindex" ++ " -- ") :=
  ⟨rfl, by decide⟩

/-- C9: the step history is append-only: a workflow start appends exactly
its name, no other hook touches the list, and a workflow end following a
start shows the same progress count as that start (the count as of the last
start). -/
theorem c9_step_history (s : Adapter) (name nm2 msg : String)
    (cause stack : Option String) (dts : Option (List (String × PyVal)))
    (dtl : Option PyVal) :
    (on_workflow_start s name).1.processed_workflow_steps =
      s.processed_workflow_steps ++ [name]
    ∧ (on_workflow_end s name).1.processed_workflow_steps = s.processed_workflow_steps
    ∧ (on_error s msg cause stack dts).1.processed_workflow_steps =
        s.processed_workflow_steps
    ∧ (on_warning s msg dtl).1.processed_workflow_steps = s.processed_workflow_steps
    ∧ (on_log s msg dtl).1.processed_workflow_steps = s.processed_workflow_steps
    ∧ (s.num_workflow_steps ≠ 0 →
        strContainsSub (on_workflow_start s name).2.message
          ("(" ++ toString (s.processed_workflow_steps.length + 1) ++ "/" ++
            toString s.num_workflow_steps ++ ")")
        ∧ strContainsSub (on_workflow_end (on_workflow_start s name).1 nm2).2.message
          ("(" ++ toString (s.processed_workflow_steps.length + 1) ++ "/" ++
            toString s.num_workflow_steps ++ ")")) := by
  refine ⟨rfl, rfl, rfl, rfl, rfl, ?_⟩
  intro h
  have hlen : (s.processed_workflow_steps ++ [name]).length =
      s.processed_workflow_steps.length + 1 := by simp
  have hstart : (on_workflow_start s name).2.message =
      (if s.index_name = "" then "" else "Index: " ++ s.index_name ++ " -- ") ++
        "Workflow" ++
        (if s.num_workflow_steps = 0 then ""
         else " (" ++ toString (s.processed_workflow_steps ++ [name]).length ++ "/" ++
           toString s.num_workflow_steps ++ ")") ++ ": " ++ name ++ " started." := rfl
  have hend : (on_workflow_end (on_workflow_start s name).1 nm2).2.message =
      (if s.index_name = "" then "" else "Index: " ++ s.index_name ++ " -- ") ++
        "Workflow" ++
        (if s.num_workflow_steps = 0 then ""
         else " (" ++ toString (s.processed_workflow_steps ++ [name]).length ++ "/" ++
           toString s.num_workflow_steps ++ ")") ++ ": " ++ nm2 ++ " complete." := rfl
  constructor
  · rw [hstart, if_neg h, hlen]
    exact strContainsSub_progress _ _ _ _ _ _
  · rw [hend, if_neg h, hlen]
    exact strContainsSub_progress _ _ _ _ _ _

/-- Witness for C9 at a concrete adapter with three expected steps. -/
theorem c9_step_history_witness :
    strContainsSub (on_workflow_start ⟨[], "N/A", "", 3, []⟩ "A").2.message
      ("(" ++ toString (List.length ([] : List String) + 1) ++ "/" ++
        toString (3 : Int) ++ ")") :=
  ((c9_step_history ⟨[], "N/A", "", 3, []⟩ "A" "B" "m" Option.none Option.none
    Option.none Option.none).2.2.2.2.2 (by decide)).1

/-! Lemmas locating the top-level keys of a flattened dict, for the
`on_error` property bindings. -/

theorem mem_pyDict_lookup (l : List (String × PyVal)) (k : String) (v : PyVal)
    (h : (k, v) ∈ pyDict l) : pyLookup l k = some v := by
  rw [← pyLookup_pyDict]
  exact pyLookup_of_nodup_mem _ _ _ (keys_pyDict_nodup l) h

/-- Every key produced under a non-empty parent extends the parent by the
separator. -/
theorem unwrap_items_key_shape : ∀ (es : List (String × PyVal)) (parent sep : String),
    parent ≠ "" → ∀ p ∈ unwrap_items es parent sep, ∃ q, p.1 = parent ++ sep ++ q
  | [], _, _, _, p, hp => absurd hp (List.not_mem_nil p)
  | (k, v) :: rest, parent, sep, hparent, p, hp => by
    have hjk : joinKey parent sep k = parent ++ sep ++ k := if_neg hparent
    rcases List.mem_append.mp hp with h1 | h1
    · cases v with
      | dict es2 =>
        have h2 : p ∈ unwrap_items es2 (joinKey parent sep k) sep := mem_pyDict _ p h1
        have hne2 : joinKey parent sep k ≠ "" := by
          rw [hjk]
          exact append_ne_empty_left _ _ (append_ne_empty_left _ _ hparent)
        obtain ⟨q, hq⟩ := unwrap_items_key_shape es2 (joinKey parent sep k) sep hne2 p h2
        refine ⟨k ++ sep ++ q, ?_⟩
        rw [hq, hjk]
        simp [String.append_assoc]
      | str s2 =>
        have h2 : p = (joinKey parent sep k, PyVal.str s2) := List.mem_singleton.mp h1
        exact ⟨k, by rw [h2, ← hjk]⟩
      | int n =>
        have h2 : p = (joinKey parent sep k, PyVal.int n) := List.mem_singleton.mp h1
        exact ⟨k, by rw [h2, ← hjk]⟩
      | pyNone =>
        have h2 : p = (joinKey parent sep k, PyVal.pyNone) := List.mem_singleton.mp h1
        exact ⟨k, by rw [h2, ← hjk]⟩
    · exact unwrap_items_key_shape rest parent sep hparent p h1

/-- For a target key without the separator character, looking it up in the
flattened dict of a mapping with non-empty keys whose value at the target is
not itself a mapping agrees with the direct lookup: nested entries can only
contribute keys that contain the separator. -/
theorem unwrap_items_top_lookup : ∀ (es : List (String × PyVal)) (target : String),
    '_' ∉ target.data →
    (∀ p ∈ es, p.1 ≠ "") →
    (∀ p ∈ es, p.1 = target → p.2.isDict = false) →
    pyLookup (unwrap_items es "" "_") target = pyLookup es target
  | [], _, _, _, _ => rfl
  | (k, v) :: rest, target, hu, hne, hsc => by
    have hrest := unwrap_items_top_lookup rest target hu
      (fun p hp => hne p (List.mem_cons_of_mem _ hp))
      (fun p hp he => hsc p (List.mem_cons_of_mem _ hp) he)
    have hcons : unwrap_items ((k, v) :: rest) "" "_" =
        unwrapVal v (joinKey "" "_" k) "_" ++ unwrap_items rest "" "_" := rfl
    rw [hcons, pyLookup_append, hrest]
    have hgoalr : pyLookup ((k, v) :: rest) target =
        match pyLookup rest target with
        | some w => some w
        | Option.none => if k = target then some v else Option.none := rfl
    rw [hgoalr]
    cases hr : pyLookup rest target with
    | some u => rfl
    | none =>
      show pyLookup (unwrapVal v (joinKey "" "_" k) "_") target =
        if k = target then some v else Option.none
      cases v with
      | str s2 => rfl
      | int n => rfl
      | pyNone => rfl
      | dict es2 =>
        have hk : k ≠ target := by
          intro he
          have hd := hsc (k, PyVal.dict es2) (List.mem_cons_self _ _) he
          simp [PyVal.isDict] at hd
        have hknil : k ≠ "" := hne (k, PyVal.dict es2) (List.mem_cons_self _ _)
        have hnone : pyLookup (unwrap_items es2 k "_") target = Option.none := by
          cases hl : pyLookup (unwrap_items es2 k "_") target with
          | none => rfl
          | some u =>
            have hmem := pyLookup_mem _ _ _ hl
            obtain ⟨q, hq⟩ := unwrap_items_key_shape es2 k "_" hknil (target, u) hmem
            have hsep : '_' ∈ target.data := by
              have hq1 : target = k ++ "_" ++ q := hq
              rw [hq1]
              have hus : "_".data = ['_'] := rfl
              simp [String.data_append, hus]
            exact absurd hsep hu
        show pyLookup (pyDict (unwrap_items es2 (joinKey "" "_" k) "_")) target =
          if k = target then some (PyVal.dict es2) else Option.none
        have hjk : joinKey "" "_" k = k := if_pos rfl
        rw [hjk, pyLookup_pyDict, hnone, if_neg hk]

/-- C7 (corrected): provided the caller-supplied details have non-empty
keys and do not bind `cause` or `stack` to a nested mapping, every error
record's properties contain `cause` (the stringified cause, `None`
stringified when absent) and `stack` (the stack text, or the `None` value
when absent), with caller-supplied bindings overriding on collision; the
record carries `exc_info` and ERROR severity. -/
theorem c7_on_error_cause_stack (s : Adapter) (msg : String)
    (cause stack : Option String) (details : Option (List (String × PyVal)))
    (hne : ∀ p ∈ details.getD [], p.1 ≠ "")
    (hcause : ∀ p ∈ details.getD [], p.1 = "cause" → p.2.isDict = false)
    (hstack : ∀ p ∈ details.getD [], p.1 = "stack" → p.2.isDict = false) :
    ∃ m, (on_error s msg cause stack details).2.extra =
        [("custom_dimensions", PyVal.dict m)]
      ∧ pyLookup m "cause" =
          some (match pyLookup (details.getD []) "cause" with
                | some v => v
                | Option.none => PyVal.str (pyStrCause cause))
      ∧ pyLookup m "stack" =
          some (match pyLookup (details.getD []) "stack" with
                | some v => v
                | Option.none => pyStackVal stack)
      ∧ (on_error s msg cause stack details).2.exc_info = true
      ∧ (on_error s msg cause stack details).2.level = LogLevel.error := by
  have hbase_ne : ∀ p ∈ errorBase cause stack, p.1 ≠ "" := by
    intro p hp
    simp only [errorBase, List.mem_cons, List.not_mem_nil, or_false] at hp
    rcases hp with h | h
    · rw [h]
      show "cause" ≠ ""
      decide
    · rw [h]
      show "stack" ≠ ""
      decide
  have hsv_flat : (pyStackVal stack).isDict = false := by
    cases stack <;> rfl
  have hbase_sc : ∀ p ∈ errorBase cause stack, p.2.isDict = false := by
    intro p hp
    simp only [errorBase, List.mem_cons, List.not_mem_nil, or_false] at hp
    rcases hp with h | h
    · rw [h]
      rfl
    · rw [h]
      exact hsv_flat
  have hd1_ne : ∀ p ∈ pyDict (errorBase cause stack ++ details.getD []), p.1 ≠ "" := by
    intro p hp
    rcases List.mem_append.mp (mem_pyDict _ p hp) with h1 | h1
    · exact hbase_ne p h1
    · exact hne p h1
  have hd1_sc : ∀ (target : String),
      (∀ p ∈ details.getD [], p.1 = target → p.2.isDict = false) →
      ∀ p ∈ pyDict (errorBase cause stack ++ details.getD []),
        p.1 = target → p.2.isDict = false := by
    intro target htar p hp he
    rcases List.mem_append.mp (mem_pyDict _ p hp) with h1 | h1
    · exact hbase_sc p h1
    · exact htar p h1 he
  have hlookup : ∀ (target : String) (w0 : PyVal), '_' ∉ target.data →
      pyLookup (errorBase cause stack) target = some w0 →
      (∀ p ∈ details.getD [], p.1 = target → p.2.isDict = false) →
      pyLookup (pyDict (s.properties ++
          unwrap_dict (pyDict (errorBase cause stack ++ details.getD [])) "" "_")) target =
        some (match pyLookup (details.getD []) target with
              | some w => w
              | Option.none => w0) := by
    intro target w0 hu hbase htar
    have hinner :
        pyLookup (unwrap_dict (pyDict (errorBase cause stack ++ details.getD [])) "" "_")
          target =
        match pyLookup (details.getD []) target with
        | some w => some w
        | Option.none => pyLookup (errorBase cause stack) target := by
      have hud : unwrap_dict (pyDict (errorBase cause stack ++ details.getD [])) "" "_" =
          pyDict (unwrap_items (pyDict (errorBase cause stack ++ details.getD [])) "" "_") :=
        rfl
      rw [hud, pyLookup_pyDict,
        unwrap_items_top_lookup _ target hu hd1_ne (hd1_sc target htar),
        pyLookup_pyDict, pyLookup_append]
    rw [pyLookup_pyDict, pyLookup_append, hinner]
    cases hdt : pyLookup (details.getD []) target with
    | some w => rfl
    | none =>
      rw [hbase]
  refine ⟨pyDict (s.properties ++
      unwrap_dict (pyDict (errorBase cause stack ++ details.getD [])) "" "_"),
    ?_, ?_, ?_, rfl, rfl⟩
  · cases details <;> rfl
  · have hbc : pyLookup (errorBase cause stack) "cause" =
        some (PyVal.str (pyStrCause cause)) := by
      simp [errorBase, pyLookup]
    exact hlookup "cause" (PyVal.str (pyStrCause cause)) (by decide) hbc hcause
  · have hbs : pyLookup (errorBase cause stack) "stack" = some (pyStackVal stack) := by
      simp [errorBase, pyLookup]
    exact hlookup "stack" (pyStackVal stack) (by decide) hbs hstack

/-- Witness for C7: a concrete error record with absent cause and stack and
flat caller details overriding the cause. -/
theorem c7_on_error_cause_stack_witness :
    ∃ m, (on_error ⟨[], "N/A", "", 0, []⟩ "boom" Option.none Option.none
        (some [("cause", PyVal.str "custom"), ("k", PyVal.int 7)])).2.extra =
      [("custom_dimensions", PyVal.dict m)]
      ∧ pyLookup m "cause" =
          some (match pyLookup [("cause", PyVal.str "custom"), ("k", PyVal.int 7)] "cause" with
                | some v => v
                | Option.none => PyVal.str (pyStrCause Option.none))
      ∧ pyLookup m "stack" =
          some (match pyLookup [("cause", PyVal.str "custom"), ("k", PyVal.int 7)] "stack" with
                | some v => v
                | Option.none => pyStackVal Option.none)
      ∧ (on_error ⟨[], "N/A", "", 0, []⟩ "boom" Option.none Option.none
          (some [("cause", PyVal.str "custom"), ("k", PyVal.int 7)])).2.exc_info = true
      ∧ (on_error ⟨[], "N/A", "", 0, []⟩ "boom" Option.none Option.none
          (some [("cause", PyVal.str "custom"), ("k", PyVal.int 7)])).2.level =
        LogLevel.error :=
  c7_on_error_cause_stack ⟨[], "N/A", "", 0, []⟩ "boom" Option.none Option.none
    (some [("cause", PyVal.str "custom"), ("k", PyVal.int 7)])
    (by decide) (by decide) (by decide)

/-- C7 counterexample: with caller details binding cause to the nested
mapping x ↦ 1, flattening rewrites the key to cause_x, so the record's
properties contain no cause key and the claim fails as stated. -/
theorem c7_counterexample :
    (on_error ⟨[], "N/A", "", 0, []⟩ "boom" Option.none Option.none
        (some [("cause", PyVal.dict [("x", PyVal.int 1)])])).2.extra =
      [("custom_dimensions",
        PyVal.dict [("cause_x", PyVal.int 1), ("stack", PyVal.pyNone)])]
    ∧ pyLookup [("cause_x", PyVal.int 1), ("stack", PyVal.pyNone)] "cause" =
        Option.none := by
  constructor
  · decide
  · decide
